import Mathlib

/-!
Shallow embedding of the probe-statistics engine of lerndmina/pinger.

Sources embedded here:
* src/src/services/database.ts  (DatabaseService: saveResult, loadHistoricalStats, close)
* src/src/index.ts              (Pinger: updateStats, calculatePercentile, stop, constants)
* src/src/utils/ping.ts         (ping / parsePingOutput, Linux pattern)
* src/unnamed/part_006          (legacy Pinger.saveResult with the fixed 50000-row prune)

Latencies are modelled as exact rationals: ping reports decimal fractions, and
every claim-relevant predicate below is robust to the tiny binary rounding of
the JavaScript doubles.  SQL NULL is modelled with Option.
-/

/-- A latency value in milliseconds. -/
abbrev Latency := ℚ

/-- One row of the durable ping_results table (id order is list order,
oldest first).  The latency column is nullable. -/
structure Row where
  latency : Option Latency
  is_successful : Bool
deriving DecidableEq

/-- The singleton ping_stats row (id = 1): the all-time aggregate counters.
historical_min has SQL default NULL, the other columns default 0. -/
structure AggRow where
  total_count : ℕ
  total_sum : ℚ
  historical_max : ℚ
  historical_min : Option ℚ
deriving DecidableEq

/-- Durable content of the sqlite file: the row log, the optional aggregate
row (absent before initDatabase ran), and the settings table reduced to its
only key, last_target. -/
structure Durable where
  rows : List Row
  agg : Option AggRow
  last_target : Option String
deriving DecidableEq

/-- Column defaults of the ping_stats table. -/
def defaultAgg : AggRow := { total_count := 0, total_sum := 0, historical_max := 0, historical_min := none }

/-- Durable content of a file that does not exist yet. -/
def emptyDurable : Durable := { rows := [], agg := none, last_target := none }

/-- DatabaseService.initDatabase: CREATE TABLE IF NOT EXISTS is a no-op on
the model; INSERT OR IGNORE INTO ping_stats (id) VALUES (1) creates the
aggregate row only when it is absent. -/
def initDatabase (d : Durable) : Durable :=
  { d with agg := some (d.agg.getD defaultAgg) }

/-- Opening the database: new Database(path) loads the file content (or an
empty store when the file is missing), then the constructor runs
initDatabase. -/
def openDatabase (file : Option Durable) : Durable :=
  initDatabase (file.getD emptyDurable)

/-- DatabaseService.close: bun sqlite close releases the handle and leaves
the durable content untouched. -/
def closeDatabase (d : Durable) : Durable := d

/-- The UPDATE ping_stats statement of DatabaseService.saveResult, applied
to the aggregate row for one successful latency. -/
def aggUpdate (a : AggRow) (lat : Latency) : AggRow :=
  { total_count := a.total_count + 1
    total_sum := a.total_sum + lat
    historical_max := max a.historical_max lat
    historical_min := some (match a.historical_min with
      | none => lat
      | some m => min m lat) }

/-- DatabaseService.saveResult (database.ts lines 77-99): INSERT one
ping_results row, then, only when isSuccessful and latency is not null,
UPDATE the aggregate counters.  No row is ever deleted here. -/
def saveResult (d : Durable) (latency : Option Latency) (isSuccessful : Bool) : Durable :=
  let d1 : Durable := { d with rows := d.rows ++ [{ latency := latency, is_successful := isSuccessful }] }
  match isSuccessful, latency with
  | true, some lat => { d1 with agg := d1.agg.map (fun a => aggUpdate a lat) }
  | _, _ => d1

/-- Legacy Pinger.saveResult (src/unnamed/part_006 lines 176-192): INSERT a
row, then DELETE every row that is not among the 50000 with the largest id.
The cap is the literal 50000, not configurable, and that schema has no
aggregate-counter table at all. -/
def saveResultLegacy (rows : List Row) (latency : Option Latency) (isSuccessful : Bool) : List Row :=
  let r := rows ++ [{ latency := latency, is_successful := isSuccessful }]
  (r.reverse.take 50000).reverse

/-- MAX_GRAPH_SIZE from src/src/index.ts line 15. -/
def MAX_GRAPH_SIZE : ℕ := 50

/-- JavaScript array indexing: arr[i] is undefined outside the range,
negative indices included. -/
def jsGet {α : Type} (l : List α) (i : ℤ) : Option α :=
  if h : 0 ≤ i ∧ i.toNat < l.length then some (l.get ⟨i.toNat, h.2⟩) else none

/-- Percentile of DatabaseService.loadHistoricalStats (database.ts lines
160-163): sort ascending, take index ceil(n * 0.99) - 1, and the undefined
read on an empty window falls back to 0 through the JS or-expression. -/
def dbPercentile99 (lats : List Latency) : Latency :=
  let sorted := List.insertionSort (· ≤ ·) lats
  let percentileIdx : ℤ := ⌈(sorted.length : ℚ) * (99 / 100 : ℚ)⌉ - 1
  (jsGet sorted percentileIdx).getD 0

/-- Live statistics block of a PingStats value (types/interfaces.ts).  The
percentile field is Option because Pinger.calculatePercentile can produce
undefined. -/
structure StatsBlock where
  maxLatency : Latency
  minLatency : Latency
  avgLatency : Latency
  percentile99 : Option Latency
deriving DecidableEq

/-- PingStats (types/interfaces.ts): the statistics snapshot shared by the
live loop and the startup reconstruction. -/
structure PingStats where
  totalPings : ℕ
  successful : ℕ
  failed : ℕ
  latencies : List Latency
  stats : StatsBlock
deriving DecidableEq

/-- DatabaseService.loadHistoricalStats (database.ts lines 101-177) for a
given queryLimit.  Counts come from the most recent queryLimit rows; the
latency statistics come from the all-time aggregate row; the recent
latencies are the last MAX_GRAPH_SIZE successful non-null ones.  Returns
none when the aggregate row is absent (the TS code would throw there).
SUM over an empty window is SQL NULL, which the surrounding JS arithmetic
coerces to 0; modelled as 0. -/
def loadHistoricalStats (queryLimit : ℕ) (d : Durable) : Option PingStats :=
  d.agg.map fun a =>
    let limited := d.rows.reverse.take queryLimit
    let recentDesc := ((d.rows.filter (fun r => r.is_successful && r.latency.isSome)).reverse.take
      MAX_GRAPH_SIZE).filterMap (fun r => r.latency)
    { totalPings := limited.length
      successful := (limited.filter (fun r => r.is_successful)).length
      failed := (limited.filter (fun r => !r.is_successful)).length
      latencies := recentDesc.reverse
      stats :=
        { maxLatency := a.historical_max
          minLatency := a.historical_min.getD 0
          avgLatency := if a.total_count = 0 then 0 else a.total_sum / (a.total_count : ℚ)
          percentile99 := some (dbPercentile99 recentDesc) } }

/-- Pinger.calculatePercentile (index.ts lines 160-171): linear
interpolation at position (n - 1) * p / 100.  Returns none where the JS
code produces undefined (empty input). -/
def calculatePercentile (arr : List Latency) (p : ℚ) : Option Latency :=
  let sorted := List.insertionSort (· ≤ ·) arr
  let pos : ℚ := ((sorted.length : ℚ) - 1) * p / 100
  let base : ℤ := ⌊pos⌋
  let rest : ℚ := pos - (base : ℚ)
  match jsGet sorted (base + 1) with
  | some nxt => (jsGet sorted base).map (fun cur => cur + rest * (nxt - cur))
  | none => jsGet sorted base

/-- The rolling-window step inside Pinger.updateStats (index.ts lines
138-143): push, then shift once when the length exceeds the limit. -/
def pushWindow (queryLimit : ℕ) (hist : List Latency) (lat : Latency) : List Latency :=
  let h := hist ++ [lat]
  if queryLimit < h.length then h.tail else h

/-- Maximum of a latency list as Math.max over a nonempty spread; the empty
case is unreachable in updateStats (the window was just pushed). -/
def listMax : List Latency → Latency
  | [] => 0
  | x :: xs => xs.foldl max x

/-- Minimum of a latency list, as listMax. -/
def listMin : List Latency → Latency
  | [] => 0
  | x :: xs => xs.foldl min x

/-- Pinger.updateStats (index.ts lines 134-158), the pure part: bump
totalPings, then either record a success (push the window, recompute the
stats block from the whole window) or bump the failure counter.  The db
write of line 157 is modelled separately by saveResult. -/
def updateStats (queryLimit : ℕ) (s : PingStats) (hist : List Latency)
    (latency : Option Latency) (isSuccessful : Bool) : PingStats × List Latency :=
  let s0 : PingStats := { s with totalPings := s.totalPings + 1 }
  match isSuccessful, latency with
  | true, some lat =>
      let allLatencies := pushWindow queryLimit hist lat
      ({ s0 with
          successful := s.successful + 1
          stats :=
            { maxLatency := listMax allLatencies
              minLatency := listMin allLatencies
              avgLatency := allLatencies.sum / (allLatencies.length : ℚ)
              percentile99 := calculatePercentile allLatencies 99 } },
        allLatencies)
  | _, _ => ({ s0 with failed := s.failed + 1 }, hist)

/-- The zeroed PingStats of Pinger.loadInitialStats fallback (index.ts
lines 94-105). -/
def initialPingStats : PingStats :=
  { totalPings := 0, successful := 0, failed := 0, latencies := []
    stats := { maxLatency := 0, minLatency := 0, avgLatency := 0, percentile99 := some 0 } }

/-- One probe outcome as handed to updateStats and saveResult: the latency
(null on failure) and the success flag. -/
abbrev Probe := Option Latency × Bool

/-- Recording a probe sequence in the durable store, in order. -/
def applyProbes (d : Durable) (ps : List Probe) : Durable :=
  ps.foldl (fun acc p => saveResult acc p.1 p.2) d

/-- The latencies that contribute to the aggregate counters: those of
probes with success = true and a non-null latency. -/
def successLats (ps : List Probe) : List Latency :=
  ps.filterMap (fun p => if p.2 then p.1 else none)

/-- Running minimum with the NULL seed, as historical_min evolves. -/
def optMin (o : Option ℚ) (x : ℚ) : Option ℚ :=
  some (match o with
    | none => x
    | some m => min m x)

/-- One live tick of the statistics (ping outcome fed to updateStats). -/
def stepLive (queryLimit : ℕ) (e : PingStats × List Latency) (p : Probe) : PingStats × List Latency :=
  updateStats queryLimit e.1 e.2 p.1 p.2

/-- Live statistics after a probe sequence starting from the zero state. -/
def runLive (queryLimit : ℕ) (ps : List Probe) : PingStats × List Latency :=
  ps.foldl (stepLive queryLimit) (initialPingStats, [])

/-! Prober: src/src/utils/ping.ts, Linux/darwin output pattern.  The probe
subprocess output is modelled as a character list. -/

/-- Strip a literal from the front of a character list, none when it does
not begin with the literal. -/
def dropLit : List Char → List Char → Option (List Char)
  | [], s => some s
  | _ :: _, [] => none
  | c :: cs, d :: ds => if c = d then dropLit cs ds else none

/-- Digit run to a natural number, as parseFloat reads the matched
digits. -/
def digitsToNat (ds : List Char) : ℕ :=
  ds.foldl (fun n c => 10 * n + (c.toNat - 48)) 0

/-- Value of parseFloat on the capture a.b of the time pattern. -/
def ratOfParts (a b : List Char) : ℚ :=
  (digitsToNat a : ℚ) + (digitsToNat b : ℚ) / ((10 : ℚ) ^ b.length)

/-- Match the regex time=(\d+\.\d+) ms at the head of the input; the digit
runs are maximal, which coincides with the greedy regex semantics because a
digit can match neither the dot nor the space that must follow. -/
def matchTimeHere (s : List Char) : Option ℚ :=
  (dropLit "time=".toList s).bind fun s1 =>
    let a := s1.takeWhile Char.isDigit
    let s2 := s1.dropWhile Char.isDigit
    if a.isEmpty then none else
      (dropLit ['.'] s2).bind fun s3 =>
        let b := s3.takeWhile Char.isDigit
        let s4 := s3.dropWhile Char.isDigit
        if b.isEmpty then none else
          (dropLit " ms".toList s4).map fun _ => ratOfParts a b

/-- First match of the time pattern anywhere in the output (the regex scans
left to right). -/
def findTime : List Char → Option ℚ
  | [] => none
  | c :: cs =>
    match matchTimeHere (c :: cs) with
    | some v => some v
    | none => findTime cs

/-- Does the input begin with the needle, as a scanner step. -/
def beginsWith (needle s : List Char) : Bool :=
  (dropLit needle s).isSome

/-- Does the needle occur anywhere in the input. -/
def containsFrom (needle : List Char) : List Char → Bool
  | [] => needle.isEmpty
  | c :: cs => beginsWith needle (c :: cs) || containsFrom needle cs

/-- Substring test, as String.prototype.includes. -/
def containsStr (s : List Char) (needle : String) : Bool :=
  containsFrom needle.toList s

/-- Classification of one probe subprocess output by ping (ping.ts lines
12-16) followed by parsePingOutput (lines 31-36): every failure is the
thrown Error with message Packet dropped; a latency is returned only when
the time pattern matches. -/
def pingClassify (output : List Char) : Except String ℚ :=
  if containsStr output "Request timed out" || containsStr output "100% packet loss" ||
      containsStr output "Destination host unreachable" || !containsStr output "time=" then
    Except.error "Packet dropped"
  else
    match findTime output with
    | some v => Except.ok v
    | none => Except.error "Packet dropped"

/-- The ping entry point (ping.ts lines 1-17): an empty target throws
before any subprocess runs; otherwise the output is classified. -/
def ping (target : String) (output : List Char) : Except String ℚ :=
  if target = "" then Except.error "Target is required" else pingClassify output

/-- Success test on a classification result. -/
def isOkB : Except String ℚ → Bool
  | Except.ok _ => true
  | Except.error _ => false

/-- Decidable equality of classification results, used to evaluate the
classifier on concrete outputs. -/
instance : DecidableEq (Except String ℚ) := fun a b =>
  match a, b with
  | Except.ok x, Except.ok y =>
      if h : x = y then isTrue (by rw [h]) else isFalse (fun hc => h (Except.ok.inj hc))
  | Except.ok _, Except.error _ => isFalse (fun hc => Except.noConfusion hc)
  | Except.error _, Except.ok _ => isFalse (fun hc => Except.noConfusion hc)
  | Except.error x, Except.error y =>
      if h : x = y then isTrue (by rw [h]) else isFalse (fun hc => h (Except.error.inj hc))

/-- Startup validation (index.ts lines 183-191): any error thrown by the
validation ping is fatal — stop and exit 1. -/
def validationFatal (output : List Char) : Bool :=
  !isOkB (pingClassify output)

/-- The specification-side time pattern: the output contains a substring
time= followed by a nonempty digit run, a dot, a nonempty digit run and
a space before ms. -/
def HasTimePattern (out : List Char) : Prop :=
  ∃ pre a b post, out = pre ++ "time=".toList ++ a ++ ['.'] ++ b ++ " ms".toList ++ post ∧
    a ≠ [] ∧ (∀ c ∈ a, c.isDigit) ∧ b ≠ [] ∧ (∀ c ∈ b, c.isDigit)

/-! Lifecycle: Pinger.stop (index.ts lines 252-276) and
DatabaseService.close (database.ts lines 179-181). -/

/-- StopOptions (types/interfaces.ts) with the defaults of stop. -/
structure StopOptions where
  sendHelp : Bool
  force : Bool
  msg : Option String
deriving DecidableEq

/-- Defaults merged by stop when no options are passed. -/
def defaultStopOptions : StopOptions := { sendHelp := false, force := false, msg := none }

/-- A database handle: durable content plus the closed flag. -/
structure DbHandle where
  durable : Durable
  closed : Bool
deriving DecidableEq

/-- DatabaseService.close: bun sqlite close is documented as a no-op on an
already-closed handle, so closing only sets the flag. -/
def closeHandle (h : DbHandle) : DbHandle := { h with closed := true }

/-- The mutable Pinger state touched by stop: the loop flag, the screen,
the database handle. -/
structure PingerLifecycle where
  isRunning : Bool
  screenDestroyed : Bool
  db : DbHandle
deriving DecidableEq

/-- What stop does after mutating the state: nothing, exit 0 (force), or
print help and exit (sendHelp). -/
inductive ExitAction
  | none
  | exitZero
  | showHelp
deriving DecidableEq

/-- Pinger.stop: merge options with the defaults, clear the loop flag,
destroy the screen, close the store, then honour force or sendHelp. -/
def stop (p : PingerLifecycle) (opts : StopOptions) : PingerLifecycle × ExitAction :=
  ({ isRunning := false, screenDestroyed := true, db := closeHandle p.db },
    if opts.force then ExitAction.exitZero
    else if opts.sendHelp then ExitAction.showHelp
    else ExitAction.none)

/-! Helper lemmas on the store. -/

theorem saveResult_rows (d : Durable) (lat : Option Latency) (b : Bool) :
    (saveResult d lat b).rows = d.rows ++ [{ latency := lat, is_successful := b }] := by
  cases b <;> cases lat <;> rfl

theorem saveResult_agg_fail (d : Durable) (lat : Option Latency) :
    (saveResult d lat false).agg = d.agg := by
  cases lat <;> rfl

theorem saveResult_agg_nullLat (d : Durable) (b : Bool) :
    (saveResult d none b).agg = d.agg := by
  cases b <;> rfl

theorem saveResult_agg_success (d : Durable) (l : Latency) :
    (saveResult d (some l) true).agg = d.agg.map (fun a => aggUpdate a l) := rfl

theorem saveResult_agg (d : Durable) (lat : Option Latency) (b : Bool) :
    (saveResult d lat b).agg =
      d.agg.map (fun a => (successLats [(lat, b)]).foldl aggUpdate a) := by
  cases b <;> cases lat <;>
    simp [saveResult, successLats, Option.map_id]

theorem applyProbes_nil (d : Durable) : applyProbes d [] = d := rfl

theorem applyProbes_cons (d : Durable) (p : Probe) (ps : List Probe) :
    applyProbes d (p :: ps) = applyProbes (saveResult d p.1 p.2) ps := rfl

theorem applyProbes_rows (d : Durable) (ps : List Probe) :
    (applyProbes d ps).rows =
      d.rows ++ ps.map (fun p => { latency := p.1, is_successful := p.2 }) := by
  induction ps generalizing d with
  | nil => simp [applyProbes_nil]
  | cons p ps ih =>
      rw [applyProbes_cons, ih, saveResult_rows]
      simp

theorem successLats_cons (p : Probe) (ps : List Probe) :
    successLats (p :: ps) = (if p.2 then p.1 else none).toList ++ successLats ps := by
  simp [successLats, List.filterMap_cons]
  cases p.2 <;> cases p.1 <;> simp

theorem applyProbes_agg (d : Durable) (ps : List Probe) :
    (applyProbes d ps).agg = d.agg.map (fun a => (successLats ps).foldl aggUpdate a) := by
  induction ps generalizing d with
  | nil => simp [applyProbes_nil, successLats]
  | cons p ps ih =>
      rw [applyProbes_cons, ih, saveResult_agg]
      cases h : d.agg with
      | none => rfl
      | some a =>
          simp [successLats_cons]
          cases hp : p.2 <;> cases hl : p.1 <;> simp [successLats, Option.toList]

theorem foldl_aggUpdate_count (l : List Latency) (a : AggRow) :
    (l.foldl aggUpdate a).total_count = a.total_count + l.length := by
  induction l generalizing a with
  | nil => simp
  | cons x xs ih => simp [ih, aggUpdate]; omega

theorem foldl_aggUpdate_sum (l : List Latency) (a : AggRow) :
    (l.foldl aggUpdate a).total_sum = a.total_sum + l.sum := by
  induction l generalizing a with
  | nil => simp
  | cons x xs ih => simp [ih, aggUpdate]; ring

theorem foldl_aggUpdate_max (l : List Latency) (a : AggRow) :
    (l.foldl aggUpdate a).historical_max = l.foldl max a.historical_max := by
  induction l generalizing a with
  | nil => rfl
  | cons x xs ih => simp [ih, aggUpdate]

theorem foldl_aggUpdate_min (l : List Latency) (a : AggRow) :
    (l.foldl aggUpdate a).historical_min = l.foldl optMin a.historical_min := by
  induction l generalizing a with
  | nil => rfl
  | cons x xs ih =>
      simp only [List.foldl_cons, ih]
      congr 1

theorem openDatabase_none : openDatabase none = { rows := [], agg := some defaultAgg, last_target := none } := rfl

theorem openDatabase_agg_isSome (file : Option Durable) : (openDatabase file).agg.isSome := by
  cases file <;> simp [openDatabase, initDatabase, emptyDurable]

theorem applyProbes_agg_isSome (d : Durable) (ps : List Probe) (h : d.agg.isSome) :
    (applyProbes d ps).agg.isSome := by
  rw [applyProbes_agg]
  cases hd : d.agg with
  | none => rw [hd] at h; simp at h
  | some a => simp

theorem initDatabase_of_isSome (d : Durable) (h : d.agg.isSome) : initDatabase d = d := by
  cases hd : d.agg with
  | none => rw [hd] at h; simp at h
  | some a => cases d; simp_all [initDatabase]

theorem reopen_eq (d : Durable) (h : d.agg.isSome) :
    openDatabase (some (closeDatabase d)) = d := by
  simp [openDatabase, closeDatabase, initDatabase_of_isSome d h]

theorem filter_length_split {α : Type} (p : α → Bool) (l : List α) :
    (l.filter p).length + (l.filter (fun x => !p x)).length = l.length := by
  induction l with
  | nil => rfl
  | cons x xs ih =>
      cases h : p x <;> simp [List.filter_cons, h] <;> omega

/-! Percentile lemmas. -/

theorem jsGet_nil {α : Type} (i : ℤ) : jsGet ([] : List α) i = none := by
  rw [jsGet, dif_neg]
  rintro ⟨h1, h2⟩
  exact Nat.not_lt_zero _ h2

theorem dbPercentile99_def (lats : List Latency) :
    dbPercentile99 lats = (jsGet (List.insertionSort (· ≤ ·) lats)
      (⌈((List.insertionSort (· ≤ ·) lats).length : ℚ) * (99 / 100)⌉ - 1)).getD 0 := rfl

theorem calculatePercentile_def (arr : List Latency) (p : ℚ) :
    calculatePercentile arr p =
      match jsGet (List.insertionSort (· ≤ ·) arr)
          (⌊(((List.insertionSort (· ≤ ·) arr).length : ℚ) - 1) * p / 100⌋ + 1) with
      | some nxt =>
          (jsGet (List.insertionSort (· ≤ ·) arr)
              ⌊(((List.insertionSort (· ≤ ·) arr).length : ℚ) - 1) * p / 100⌋).map
            (fun cur => cur +
              ((((List.insertionSort (· ≤ ·) arr).length : ℚ) - 1) * p / 100 -
                (⌊(((List.insertionSort (· ≤ ·) arr).length : ℚ) - 1) * p / 100⌋ : ℤ)) * (nxt - cur))
      | none => jsGet (List.insertionSort (· ≤ ·) arr)
          ⌊(((List.insertionSort (· ≤ ·) arr).length : ℚ) - 1) * p / 100⌋ := rfl

theorem dbPercentile99_nil : dbPercentile99 [] = 0 := by
  rw [dbPercentile99_def]
  rw [show List.insertionSort (· ≤ ·) ([] : List ℚ) = [] from rfl, jsGet_nil]
  rfl

theorem calculatePercentile_nil : calculatePercentile [] 99 = none := by
  rw [calculatePercentile_def]
  rw [show List.insertionSort (· ≤ ·) ([] : List ℚ) = [] from rfl, jsGet_nil, jsGet_nil]

theorem calculatePercentile_pair : calculatePercentile [1, 2] 99 = some (199 / 100) := by
  have hsorted : List.insertionSort (· ≤ ·) ([1, 2] : List ℚ) = [1, 2] :=
    List.Sorted.insertionSort_eq (by norm_num [List.sorted_cons])
  rw [calculatePercentile_def, hsorted]
  have hlen : (([1, 2] : List ℚ).length : ℚ) = 2 := by norm_num
  rw [hlen]
  have hfloor : (⌊((2 : ℚ) - 1) * 99 / 100⌋ : ℤ) = 0 := by
    rw [Int.floor_eq_iff] ; norm_num
  rw [hfloor]
  have h1 : jsGet ([1, 2] : List ℚ) (0 + 1) = some 2 := by
    rw [jsGet, dif_pos (by constructor <;> simp)]
    simp
  have h0 : jsGet ([1, 2] : List ℚ) 0 = some 1 := by
    rw [jsGet, dif_pos (by constructor <;> simp)]
    simp
  rw [h1, h0]
  simp only [Option.map_some]
  norm_num

theorem dbPercentile99_oneToHundred :
    dbPercentile99 ((List.range 100).map (fun i => ((i + 1 : ℕ) : ℚ))) = 99 := by
  have hsorted : List.Sorted (· ≤ ·) ((List.range 100).map (fun i => ((i + 1 : ℕ) : ℚ))) := by
    refine List.Pairwise.map _ ?_ (List.pairwise_lt_range 100)
    intro a b hab
    exact_mod_cast Nat.succ_le_succ hab.le
  rw [dbPercentile99_def, List.Sorted.insertionSort_eq hsorted]
  have hlen : (((List.range 100).map (fun i => ((i + 1 : ℕ) : ℚ))).length : ℚ) = 100 := by simp
  rw [hlen]
  have hceil : (⌈(100 : ℚ) * (99 / 100)⌉ : ℤ) = 99 := by
    have h : (100 : ℚ) * (99 / 100) = 99 := by norm_num
    rw [h]
    exact_mod_cast Int.ceil_intCast 99
  rw [hceil]
  have h98 : jsGet ((List.range 100).map (fun i => ((i + 1 : ℕ) : ℚ))) (99 - 1) = some 99 := by
    rw [jsGet, dif_pos (by constructor <;> simp)]
    simp [List.get_eq_getElem]
    norm_num
  rw [h98]
  rfl

theorem dbPercentile99_pair : dbPercentile99 [1, 2] = 2 := by
  have hsorted : List.insertionSort (· ≤ ·) ([1, 2] : List ℚ) = [1, 2] :=
    List.Sorted.insertionSort_eq (by norm_num [List.sorted_cons])
  rw [dbPercentile99_def, hsorted]
  have hlen : (([1, 2] : List ℚ).length : ℚ) = 2 := by norm_num
  rw [hlen]
  have hceil : (⌈(2 : ℚ) * (99 / 100)⌉ : ℤ) = 2 := by
    rw [Int.ceil_eq_iff] ; norm_num
  rw [hceil]
  have h1 : jsGet ([1, 2] : List ℚ) (2 - 1) = some 2 := by
    rw [jsGet, dif_pos (by constructor <;> simp)]
    simp
  rw [h1]
  rfl

theorem calculatePercentile_isSome (l : List Latency) (h : l ≠ []) :
    (calculatePercentile l 99).isSome = true := by
  rw [calculatePercentile_def]
  have hlen : (List.insertionSort (· ≤ ·) l).length = l.length := by
    simp [(List.perm_insertionSort (· ≤ ·) l).length_eq]
  have hne : 0 < (List.insertionSort (· ≤ ·) l).length := by
    rw [hlen]
    exact List.length_pos.mpr h
  have hpos0 : (0 : ℚ) ≤ (((List.insertionSort (· ≤ ·) l).length : ℚ) - 1) * 99 / 100 := by
    have h1 : (1 : ℚ) ≤ ((List.insertionSort (· ≤ ·) l).length : ℚ) := by exact_mod_cast hne
    have : (0 : ℚ) ≤ ((List.insertionSort (· ≤ ·) l).length : ℚ) - 1 := by linarith
    positivity
  have hb0 : 0 ≤ ⌊(((List.insertionSort (· ≤ ·) l).length : ℚ) - 1) * 99 / 100⌋ :=
    Int.floor_nonneg.mpr hpos0
  have hposle : (((List.insertionSort (· ≤ ·) l).length : ℚ) - 1) * 99 / 100 ≤
      ((List.insertionSort (· ≤ ·) l).length : ℚ) - 1 := by
    have h1 : (1 : ℚ) ≤ ((List.insertionSort (· ≤ ·) l).length : ℚ) := by exact_mod_cast hne
    rw [div_le_iff₀ (by norm_num : (0:ℚ) < 100)]
    nlinarith
  have hble : ⌊(((List.insertionSort (· ≤ ·) l).length : ℚ) - 1) * 99 / 100⌋ ≤
      ((List.insertionSort (· ≤ ·) l).length : ℤ) - 1 := by
    calc ⌊(((List.insertionSort (· ≤ ·) l).length : ℚ) - 1) * 99 / 100⌋ ≤
        ⌊((List.insertionSort (· ≤ ·) l).length : ℚ) - 1⌋ := Int.floor_le_floor hposle
      _ = ((List.insertionSort (· ≤ ·) l).length : ℤ) - 1 := by
          rw [show (((List.insertionSort (· ≤ ·) l).length : ℚ) - 1) =
            ((((List.insertionSort (· ≤ ·) l).length : ℤ) - 1 : ℤ) : ℚ) by push_cast; ring]
          exact Int.floor_intCast _
  have hget : (jsGet (List.insertionSort (· ≤ ·) l)
      ⌊(((List.insertionSort (· ≤ ·) l).length : ℚ) - 1) * 99 / 100⌋).isSome = true := by
    rw [jsGet, dif_pos ⟨hb0, by omega⟩]
    rfl
  cases hnext : jsGet (List.insertionSort (· ≤ ·) l)
      (⌊(((List.insertionSort (· ≤ ·) l).length : ℚ) - 1) * 99 / 100⌋ + 1) with
  | some nxt =>
      obtain ⟨cur, hcur⟩ := Option.isSome_iff_exists.mp hget
      rw [hcur]
      rfl
  | none => exact hget

/-! Projections of loadHistoricalStats. -/

theorem loadHistoricalStats_isSome (L : ℕ) (d : Durable) (h : d.agg.isSome) :
    (loadHistoricalStats L d).isSome := by
  cases hd : d.agg with
  | none => rw [hd] at h; simp at h
  | some a => simp [loadHistoricalStats, hd]

theorem loadHistoricalStats_shape (L : ℕ) (d : Durable) (st : PingStats)
    (h : loadHistoricalStats L d = some st) :
    ∃ a, d.agg = some a ∧
      st.totalPings = (d.rows.reverse.take L).length ∧
      st.successful = ((d.rows.reverse.take L).filter (fun r => r.is_successful)).length ∧
      st.failed = ((d.rows.reverse.take L).filter (fun r => !r.is_successful)).length ∧
      st.stats.maxLatency = a.historical_max ∧
      st.stats.minLatency = a.historical_min.getD 0 ∧
      st.stats.avgLatency = (if a.total_count = 0 then 0 else a.total_sum / (a.total_count : ℚ)) := by
  rw [loadHistoricalStats, Option.map_eq_some'] at h
  obtain ⟨a, ha, hst⟩ := h
  subst hst
  exact ⟨a, ha, rfl, rfl, rfl, rfl, rfl, rfl⟩

theorem loadHistoricalStats_count_invariant (L : ℕ) (d : Durable) (st : PingStats)
    (h : loadHistoricalStats L d = some st) :
    st.successful + st.failed = st.totalPings ∧ st.totalPings = min L d.rows.length := by
  obtain ⟨a, _, htot, hsucc, hfail, _⟩ := loadHistoricalStats_shape L d st h
  refine ⟨?_, ?_⟩
  · rw [htot, hsucc, hfail, filter_length_split]
  · rw [htot, List.length_take, List.length_reverse]

/-! Lemmas about the live update and the rolling window. -/

theorem updateStats_totalPings (qL : ℕ) (s : PingStats) (hist : List Latency)
    (lat : Option Latency) (b : Bool) :
    (updateStats qL s hist lat b).1.totalPings = s.totalPings + 1 := by
  cases b <;> cases lat <;> rfl

theorem updateStats_counters (qL : ℕ) (s : PingStats) (hist : List Latency)
    (lat : Option Latency) (b : Bool) :
    (updateStats qL s hist lat b).1.successful + (updateStats qL s hist lat b).1.failed =
      s.successful + s.failed + 1 := by
  cases b <;> cases lat <;> simp [updateStats] <;> omega

theorem runLive_aux (qL : ℕ) (ps : List Probe) (e : PingStats × List Latency)
    (h : e.1.successful + e.1.failed = e.1.totalPings) :
    (ps.foldl (stepLive qL) e).1.successful + (ps.foldl (stepLive qL) e).1.failed =
      (ps.foldl (stepLive qL) e).1.totalPings ∧
    (ps.foldl (stepLive qL) e).1.totalPings = e.1.totalPings + ps.length := by
  induction ps generalizing e with
  | nil => simpa using h
  | cons p ps ih =>
      have hstep : (stepLive qL e p).1.successful + (stepLive qL e p).1.failed =
          (stepLive qL e p).1.totalPings := by
        rw [stepLive, updateStats_counters, updateStats_totalPings, h]
      obtain ⟨h1, h2⟩ := ih (stepLive qL e p) hstep
      refine ⟨h1, ?_⟩
      rw [List.foldl_cons, h2, stepLive, updateStats_totalPings]
      simp [List.length_cons]
      omega

theorem pushWindow_length_le (N : ℕ) (hist : List Latency) (lat : Latency)
    (h : hist.length ≤ N) : (pushWindow N hist lat).length ≤ N := by
  rw [pushWindow]
  split
  · simp
    omega
  · next hle =>
      simp at hle ⊢
      omega

theorem pushWindow_evicts (N : ℕ) (hist : List Latency) (lat : Latency)
    (hlen : hist.length = N) (hne : hist ≠ []) :
    pushWindow N hist lat = hist.tail ++ [lat] := by
  cases hist with
  | nil => exact absurd rfl hne
  | cons x xs =>
      simp only [pushWindow]
      simp only [List.length_cons] at hlen
      split
      · simp
      · next hle =>
          exfalso
          simp at hle
          omega

theorem foldl_pushWindow_length (N : ℕ) (ps : List Latency) (hist : List Latency)
    (h : hist.length ≤ N) : (ps.foldl (pushWindow N) hist).length ≤ N := by
  induction ps generalizing hist with
  | nil => simpa using h
  | cons p ps ih => exact ih (pushWindow N hist p) (pushWindow_length_le N hist p h)

/-! Lemmas about the legacy retention prune. -/

theorem saveResultLegacy_length (rows : List Row) (lat : Option Latency) (b : Bool) :
    (saveResultLegacy rows lat b).length = min (rows.length + 1) 50000 := by
  simp [saveResultLegacy]
  omega

theorem foldl_saveResultLegacy_length (ps : List Probe) (rows : List Row)
    (h : rows.length ≤ 50000) :
    (ps.foldl (fun rs p => saveResultLegacy rs p.1 p.2) rows).length =
      min (rows.length + ps.length) 50000 := by
  induction ps generalizing rows with
  | nil => simp; omega
  | cons p ps ih =>
      rw [List.foldl_cons]
      have hlen := saveResultLegacy_length rows p.1 p.2
      have hle : (saveResultLegacy rows p.1 p.2).length ≤ 50000 := by omega
      rw [ih (saveResultLegacy rows p.1 p.2) hle, hlen]
      simp [List.length_cons]
      omega

/-! Characterization of the all-time aggregates after a fresh start. -/

theorem aggRow_fold_char (l : List Latency) :
    l.foldl aggUpdate defaultAgg =
      { total_count := l.length, total_sum := l.sum,
        historical_max := l.foldl max 0, historical_min := l.foldl optMin none } := by
  have h1 := foldl_aggUpdate_count l defaultAgg
  have h2 := foldl_aggUpdate_sum l defaultAgg
  have h3 := foldl_aggUpdate_max l defaultAgg
  have h4 := foldl_aggUpdate_min l defaultAgg
  cases hfold : l.foldl aggUpdate defaultAgg with
  | mk c s mx mn =>
      rw [hfold] at h1 h2 h3 h4
      simp [defaultAgg] at h1 h2 h3 h4
      simp [h1, h2, h3, h4]

theorem applyProbes_fresh_agg (ps : List Probe) :
    (applyProbes (openDatabase none) ps).agg =
      some { total_count := (successLats ps).length, total_sum := (successLats ps).sum,
             historical_max := (successLats ps).foldl max 0,
             historical_min := (successLats ps).foldl optMin none } := by
  rw [applyProbes_agg, openDatabase_none]
  have hmap : (some defaultAgg).map (fun a => (successLats ps).foldl aggUpdate a) =
      some ((successLats ps).foldl aggUpdate defaultAgg) := rfl
  rw [hmap, aggRow_fold_char]

theorem applyProbes_fresh_rows (ps : List Probe) :
    (applyProbes (openDatabase none) ps).rows =
      ps.map (fun p => { latency := p.1, is_successful := p.2 }) := by
  rw [applyProbes_rows, openDatabase_none]
  simp

theorem loadFresh_shape (ps : List Probe) (L : ℕ) :
    ∃ st, loadHistoricalStats L (applyProbes (openDatabase none) ps) = some st ∧
      st.totalPings = min L ps.length ∧
      st.successful = ((ps.reverse.take L).filter (fun p => p.2)).length ∧
      st.failed = ((ps.reverse.take L).filter (fun p => !p.2)).length ∧
      st.stats.maxLatency = (successLats ps).foldl max 0 ∧
      st.stats.minLatency = ((successLats ps).foldl optMin none).getD 0 ∧
      st.stats.avgLatency = (if (successLats ps).length = 0 then 0
        else (successLats ps).sum / ((successLats ps).length : ℚ)) := by
  have hagg := applyProbes_fresh_agg ps
  have hs : (loadHistoricalStats L (applyProbes (openDatabase none) ps)).isSome :=
    loadHistoricalStats_isSome L _ (by rw [hagg]; rfl)
  obtain ⟨st, hst⟩ := Option.isSome_iff_exists.mp hs
  obtain ⟨a, ha, htot, hsucc, hfail, hmax, hmin, havg⟩ := loadHistoricalStats_shape L _ st hst
  rw [hagg] at ha
  have haA := Option.some.inj ha
  have hrows := applyProbes_fresh_rows ps
  refine ⟨st, hst, ?_, ?_, ?_, ?_, ?_, ?_⟩
  · rw [htot, hrows, List.length_take, List.length_reverse, List.length_map]
  · rw [hsucc, hrows, ← List.map_reverse, ← List.map_take, List.filter_map]
    rw [show ((fun r => r.is_successful) ∘ fun p : Probe =>
      ({ latency := p.1, is_successful := p.2 } : Row)) = fun p => p.2 from rfl]
    rw [List.length_map]
  · rw [hfail, hrows, ← List.map_reverse, ← List.map_take, List.filter_map]
    rw [show ((fun r => !r.is_successful) ∘ fun p : Probe =>
      ({ latency := p.1, is_successful := p.2 } : Row)) = fun p => !p.2 from rfl]
    rw [List.length_map]
  · rw [hmax, ← haA]
  · rw [hmin, ← haA]
  · rw [havg, ← haA]

/-! Lemmas about the probe output scanner. -/

theorem dropLit_some : ∀ (lit s t : List Char), dropLit lit s = some t → s = lit ++ t := by
  intro lit
  induction lit with
  | nil =>
      intro s t h
      rw [dropLit] at h
      simpa using Option.some.inj h
  | cons c cs ih =>
      intro s t h
      cases s with
      | nil => exact absurd h (by rw [dropLit]; simp)
      | cons d ds =>
          rw [dropLit] at h
          split at h
          · next heq =>
              rw [List.cons_append, heq, ih ds t h]
          · exact absurd h (by simp)

theorem matchTimeHere_some (s : List Char) (v : ℚ) (h : matchTimeHere s = some v) :
    ∃ a b post, s = "time=".toList ++ a ++ ['.'] ++ b ++ " ms".toList ++ post ∧
      a ≠ [] ∧ (∀ c ∈ a, c.isDigit) ∧ b ≠ [] ∧ (∀ c ∈ b, c.isDigit) := by
  rw [matchTimeHere] at h
  cases h1 : dropLit "time=".toList s with
  | none => rw [h1] at h; exact absurd h (by simp)
  | some s1 =>
      rw [h1] at h
      simp only [Option.some_bind] at h
      split at h
      · exact absurd h (by simp)
      · next hae =>
          cases h2 : dropLit ['.'] (s1.dropWhile Char.isDigit) with
          | none => rw [h2] at h; exact absurd h (by simp)
          | some s3 =>
              rw [h2] at h
              simp only [Option.some_bind] at h
              split at h
              · exact absurd h (by simp)
              · next hbe =>
                  cases h3 : dropLit " ms".toList (s3.dropWhile Char.isDigit) with
                  | none => rw [h3] at h; exact absurd h (by simp)
                  | some s5 =>
                      refine ⟨s1.takeWhile Char.isDigit, s3.takeWhile Char.isDigit, s5,
                        ?_, ?_, ?_, ?_, ?_⟩
                      · calc s = "time=".toList ++ s1 := dropLit_some _ _ _ h1
                          _ = "time=".toList ++
                              (s1.takeWhile Char.isDigit ++ s1.dropWhile Char.isDigit) := by
                                rw [List.takeWhile_append_dropWhile]
                          _ = "time=".toList ++
                              (s1.takeWhile Char.isDigit ++ (['.'] ++ s3)) := by
                                rw [dropLit_some _ _ _ h2]
                          _ = "time=".toList ++ (s1.takeWhile Char.isDigit ++ (['.'] ++
                              (s3.takeWhile Char.isDigit ++ s3.dropWhile Char.isDigit))) := by
                                rw [List.takeWhile_append_dropWhile]
                          _ = "time=".toList ++ (s1.takeWhile Char.isDigit ++ (['.'] ++
                              (s3.takeWhile Char.isDigit ++ (" ms".toList ++ s5)))) := by
                                rw [dropLit_some _ _ _ h3]
                          _ = "time=".toList ++ s1.takeWhile Char.isDigit ++ ['.'] ++
                              s3.takeWhile Char.isDigit ++ " ms".toList ++ s5 := by
                                simp [List.append_assoc]
                      · simpa using hae
                      · intro c hc
                        exact List.mem_takeWhile_imp hc
                      · simpa using hbe
                      · intro c hc
                        exact List.mem_takeWhile_imp hc

theorem findTime_some : ∀ (s : List Char) (v : ℚ), findTime s = some v →
    ∃ pre rest, s = pre ++ rest ∧ matchTimeHere rest = some v := by
  intro s
  induction s with
  | nil =>
      intro v h
      rw [findTime] at h
      exact absurd h (by simp)
  | cons c cs ih =>
      intro v h
      rw [findTime] at h
      cases hm : matchTimeHere (c :: cs) with
      | some w =>
          rw [hm] at h
          exact ⟨[], c :: cs, by simp, by rw [hm, Option.some.inj h]⟩
      | none =>
          rw [hm] at h
          obtain ⟨pre, rest, hsplit, hmatch⟩ := ih v h
          exact ⟨c :: pre, rest, by rw [List.cons_append, ← hsplit], hmatch⟩

/-! Claim theorems. -/

/-- C1 (amended): successful + failed = totalPings holds for every snapshot,
live and reconstructed; the live common value after N ticks is N; the value
reconstructed at startup is min queryLimit N, because the counting query is
truncated to the most recent queryLimit rows. -/
theorem stats_counter_invariant :
    (∀ (qL : ℕ) (s : PingStats) (hist : List Latency) (lat : Option Latency) (b : Bool),
        s.successful + s.failed = s.totalPings →
        (updateStats qL s hist lat b).1.successful + (updateStats qL s hist lat b).1.failed =
          (updateStats qL s hist lat b).1.totalPings ∧
        (updateStats qL s hist lat b).1.totalPings = s.totalPings + 1) ∧
    (∀ (qL : ℕ) (ps : List Probe),
        (runLive qL ps).1.successful + (runLive qL ps).1.failed = (runLive qL ps).1.totalPings ∧
        (runLive qL ps).1.totalPings = ps.length) ∧
    (∀ (ps : List Probe) (L : ℕ),
        ∃ st, loadHistoricalStats L (applyProbes (openDatabase none) ps) = some st ∧
          st.successful + st.failed = st.totalPings ∧ st.totalPings = min L ps.length) := by
  refine ⟨?_, ?_, ?_⟩
  · intro qL s hist lat b h
    refine ⟨?_, updateStats_totalPings qL s hist lat b⟩
    rw [updateStats_counters, updateStats_totalPings, h]
  · intro qL ps
    have h := runLive_aux qL ps (initialPingStats, []) rfl
    simpa [runLive, initialPingStats] using h
  · intro ps L
    obtain ⟨st, hst, htot, _⟩ := loadFresh_shape ps L
    obtain ⟨hinv, _⟩ := loadHistoricalStats_count_invariant L _ st hst
    exact ⟨st, hst, hinv, htot⟩

/-- C1 witness: the update-step invariant applied at a concrete state. -/
theorem stats_counter_invariant_witness :
    (updateStats 5 initialPingStats [] none false).1.successful +
        (updateStats 5 initialPingStats [] none false).1.failed =
      (updateStats 5 initialPingStats [] none false).1.totalPings ∧
    (updateStats 5 initialPingStats [] none false).1.totalPings =
      initialPingStats.totalPings + 1 :=
  stats_counter_invariant.1 5 initialPingStats [] none false rfl

/-- C1 counterexample: after two recorded probes, the snapshot reconstructed
with queryLimit 1 reports totalPings = 1, not the claimed common value 2. -/
theorem loadHistoricalStats_truncates_totalPings :
    (loadHistoricalStats 1 (applyProbes (openDatabase none)
        [(some 10, true), (some 20, true)])).map PingStats.totalPings = some 1 ∧
    (1 : ℕ) ≠ 2 := by
  exact ⟨by decide, by decide⟩

/-- C2 (amended): the startup reconstruction computes p99 by the
sort-and-ceil rule, returning 0 on an empty window and 99 on the window
1..100; the live figure of Pinger.calculatePercentile instead interpolates
linearly (giving 199/100 on the window 1-2) and is undefined, not 0, on an
empty window, though it is defined on every nonempty window. -/
theorem percentile99_characterization :
    dbPercentile99 [] = 0 ∧
    dbPercentile99 ((List.range 100).map (fun i => ((i + 1 : ℕ) : ℚ))) = 99 ∧
    calculatePercentile [] 99 = none ∧
    calculatePercentile [1, 2] 99 = some (199 / 100) ∧
    (∀ l : List Latency, l ≠ [] → (calculatePercentile l 99).isSome = true) :=
  ⟨dbPercentile99_nil, dbPercentile99_oneToHundred, calculatePercentile_nil,
    calculatePercentile_pair, calculatePercentile_isSome⟩

/-- C2 witness: the nonempty-window part applied at the window with the
single latency 5. -/
theorem percentile99_characterization_witness :
    (calculatePercentile [5] 99).isSome = true :=
  percentile99_characterization.2.2.2.2 [5] (by simp)

/-- C2 counterexample: the live p99 of Pinger.calculatePercentile violates
the claimed ceil rule: on the window 1-2 the ceil rule picks the element 2
(as dbPercentile99 does), but the live code returns 199/100, and on the
empty window it returns undefined rather than the claimed 0. -/
theorem calculatePercentile_not_ceil_rule :
    calculatePercentile [1, 2] 99 ≠ some 2 ∧
    calculatePercentile [] 99 ≠ some 0 ∧
    dbPercentile99 [1, 2] = 2 := by
  refine ⟨?_, ?_, dbPercentile99_pair⟩
  · rw [calculatePercentile_pair]
    intro hcontra
    have h := Option.some.inj hcontra
    norm_num at h
  · rw [calculatePercentile_nil]
    simp

/-- C3 (amended): the current DatabaseService.saveResult enforces no
retention at all (every insert grows the row log by one, so n inserts leave
n rows); the fixed 50000-row prune exists only in the legacy variant, whose
row count stabilizes at min n 50000; and whatever happens to the row log,
the max/min/avg that loadHistoricalStats reports are unaffected, because
they are read from the separate aggregate row. -/
theorem retention_amended :
    (∀ (d : Durable) (lat : Option Latency) (b : Bool),
        (saveResult d lat b).rows.length = d.rows.length + 1) ∧
    (∀ (rows : List Row) (lat : Option Latency) (b : Bool),
        (saveResultLegacy rows lat b).length = min (rows.length + 1) 50000) ∧
    (∀ ps : List Probe,
        (ps.foldl (fun rs p => saveResultLegacy rs p.1 p.2) ([] : List Row)).length =
          min ps.length 50000) ∧
    (∀ (d : Durable) (rows2 : List Row) (L : ℕ),
        (loadHistoricalStats L { d with rows := rows2 }).map
            (fun st => (st.stats.maxLatency, st.stats.minLatency, st.stats.avgLatency)) =
          (loadHistoricalStats L d).map
            (fun st => (st.stats.maxLatency, st.stats.minLatency, st.stats.avgLatency))) := by
  refine ⟨?_, saveResultLegacy_length, ?_, ?_⟩
  · intro d lat b
    rw [saveResult_rows]
    simp
  · intro ps
    have h := foldl_saveResultLegacy_length ps [] (by simp)
    simpa using h
  · intro d rows2 L
    cases hagg : d.agg with
    | none => simp [loadHistoricalStats, hagg]
    | some a => simp [loadHistoricalStats, hagg]

/-- C3 counterexample: with the claimed retentionCap = 100, inserting
cap + 100 = 200 rows leaves 200 durable rows, not 100 - the current store
never prunes. -/
theorem saveResult_no_retention_cap :
    (applyProbes (openDatabase none)
        (List.replicate 200 ((some 1 : Option Latency), true))).rows.length = 200 ∧
    (200 : ℕ) ≠ 100 := by
  constructor
  · rw [applyProbes_fresh_rows, List.length_map, List.length_replicate]
  · decide

/-- C4: saveResult appends exactly one row per call and updates the
aggregate row in the same call only when the probe succeeded with a non-null
latency; a failed probe (or a null latency) leaves every aggregate field
untouched; recording 10, 5, 30 yields historicalMax 30, historicalMin 5,
avgLatency 15. -/
theorem saveResult_aggregate_update :
    (∀ (d : Durable) (lat : Option Latency),
        (saveResult d lat false).agg = d.agg ∧
        (saveResult d lat false).rows =
          d.rows ++ [{ latency := lat, is_successful := false }]) ∧
    (∀ d : Durable, (saveResult d none true).agg = d.agg) ∧
    (∀ (d : Durable) (l : Latency),
        (saveResult d (some l) true).agg = d.agg.map (fun a => aggUpdate a l) ∧
        (saveResult d (some l) true).rows =
          d.rows ++ [{ latency := some l, is_successful := true }]) ∧
    ((loadHistoricalStats 50000 (applyProbes (openDatabase none)
        [(some 10, true), (some 5, true), (some 30, true)])).map
      (fun st => (st.stats.maxLatency, st.stats.minLatency, st.stats.avgLatency)) =
        some (30, 5, 15)) := by
  refine ⟨fun d lat => ⟨saveResult_agg_fail d lat, saveResult_rows d lat false⟩,
    fun d => saveResult_agg_nullLat d true,
    fun d l => ⟨saveResult_agg_success d l, saveResult_rows d (some l) true⟩, ?_⟩
  obtain ⟨st, hst, _, _, _, hmax, hmin, havg⟩ :=
    loadFresh_shape [(some 10, true), (some 5, true), (some 30, true)] 50000
  rw [hst]
  rw [show (some st).map
      (fun st => (st.stats.maxLatency, st.stats.minLatency, st.stats.avgLatency)) =
    some (st.stats.maxLatency, st.stats.minLatency, st.stats.avgLatency) from rfl]
  have hsl : successLats [(some 10, true), (some 5, true), (some 30, true)] = [10, 5, 30] := rfl
  rw [hsl] at hmax hmin havg
  have e1 : ([10, 5, 30] : List ℚ).foldl max 0 = 30 := by
    norm_num [List.foldl, max_def]
  have e2 : ([10, 5, 30] : List ℚ).foldl optMin none = some 5 := by
    simp [List.foldl, optMin]
    norm_num [min_def]
  have e3 : ([10, 5, 30] : List ℚ).sum = 45 := by norm_num
  rw [hmax, hmin, havg, e1, e2, e3]
  norm_num

/-- C5: reopening the store against the same file reproduces exactly the
snapshot that a load just before the restart would have produced, and in
particular the same historicalMax, historicalMin and avgLatency, which are
the all-time maximum, minimum and mean of the successfully recorded
latencies. -/
theorem persistence_roundtrip :
    (∀ (file : Option Durable) (ps : List Probe) (L : ℕ),
        loadHistoricalStats L
            (openDatabase (some (closeDatabase (applyProbes (openDatabase file) ps)))) =
          loadHistoricalStats L (applyProbes (openDatabase file) ps)) ∧
    (∀ (ps : List Probe) (L : ℕ),
        (loadHistoricalStats L
            (openDatabase (some (closeDatabase (applyProbes (openDatabase none) ps))))).map
            (fun st => (st.stats.maxLatency, st.stats.minLatency, st.stats.avgLatency)) =
          some ((successLats ps).foldl max 0, ((successLats ps).foldl optMin none).getD 0,
            if (successLats ps).length = 0 then 0
            else (successLats ps).sum / ((successLats ps).length : ℚ))) := by
  have hro : ∀ (file : Option Durable) (ps : List Probe),
      openDatabase (some (closeDatabase (applyProbes (openDatabase file) ps))) =
        applyProbes (openDatabase file) ps := fun file ps =>
    reopen_eq _ (applyProbes_agg_isSome _ _ (openDatabase_agg_isSome file))
  refine ⟨fun file ps L => by rw [hro], fun ps L => ?_⟩
  rw [hro]
  obtain ⟨st, hst, _, _, _, hmax, hmin, havg⟩ := loadFresh_shape ps L
  rw [hst]
  rw [show (some st).map
      (fun st => (st.stats.maxLatency, st.stats.minLatency, st.stats.avgLatency)) =
    some (st.stats.maxLatency, st.stats.minLatency, st.stats.avgLatency) from rfl]
  rw [hmax, hmin, havg]

/-- C6: the rolling window is a bounded FIFO: a push never grows it past
the configured limit, a push at capacity drops exactly the oldest entry,
the bound is preserved over any push sequence, and capacity 3 fed 1,2,3,4
holds exactly 2,3,4 in order. -/
theorem rollingWindow_bounded_fifo :
    (∀ (N : ℕ) (hist : List Latency) (lat : Latency),
        hist.length ≤ N → (pushWindow N hist lat).length ≤ N) ∧
    (∀ (N : ℕ) (hist : List Latency) (lat : Latency),
        hist.length = N → hist ≠ [] → pushWindow N hist lat = hist.tail ++ [lat]) ∧
    (∀ (N : ℕ) (ps : List Latency) (hist : List Latency),
        hist.length ≤ N → (ps.foldl (pushWindow N) hist).length ≤ N) ∧
    (([1, 2, 3, 4] : List Latency).foldl (pushWindow 3) [] = [2, 3, 4]) := by
  refine ⟨pushWindow_length_le, pushWindow_evicts, foldl_pushWindow_length, ?_⟩
  decide

/-- C6 witness: the bound and the eviction shape at a concrete window of
capacity 3. -/
theorem rollingWindow_bounded_fifo_witness :
    (pushWindow 3 [1, 2, 3] 4).length ≤ 3 ∧
    pushWindow 3 ([1, 2, 3] : List Latency) 4 = ([1, 2, 3] : List Latency).tail ++ [4] :=
  ⟨rollingWindow_bounded_fifo.1 3 [1, 2, 3] 4 (by decide),
    rollingWindow_bounded_fifo.2.1 3 [1, 2, 3] 4 (by decide) (by decide)⟩

/-- C7 (amended): the probe classifier has exactly one failure kind - every
thrown classification error carries the message Packet dropped - so a
privilege-restricted run is fatal at startup validation, like every other
failure, but is not distinguishable from an unreachable target. -/
theorem ping_failure_uniform :
    ∀ (out : List Char) (s : String), pingClassify out = Except.error s →
      s = "Packet dropped" ∧ validationFatal out = true := by
  intro out s h
  constructor
  · rw [pingClassify] at h
    split at h
    · exact (Except.error.inj h).symm
    · cases hf : findTime out with
      | some v =>
          rw [hf] at h
          exact absurd h (by simp)
      | none =>
          rw [hf] at h
          exact (Except.error.inj h).symm
  · rw [validationFatal, h]
    rfl

/-- C7 witness: the uniform-failure theorem applied to the empty probe
output (what an unprivileged ping leaves on stdout). -/
theorem ping_failure_uniform_witness :
    "Packet dropped" = "Packet dropped" ∧ validationFatal [] = true :=
  ping_failure_uniform [] "Packet dropped" (by decide)

/-- C7 counterexample: the output of a permission-denied run and the output
of an unreachable-target run classify to the very same error value, so the
caller cannot distinguish a PermissionDenied kind. -/
theorem permission_not_distinguished :
    pingClassify ("ping: socket: Operation not permitted".toList) =
      Except.error "Packet dropped" ∧
    pingClassify ("From 192.168.1.1 icmp_seq=1 Destination Host Unreachable".toList) =
      Except.error "Packet dropped" ∧
    pingClassify ("ping: socket: Operation not permitted".toList) =
      pingClassify ("From 192.168.1.1 icmp_seq=1 Destination Host Unreachable".toList) := by
  refine ⟨?_, ?_, ?_⟩ <;> decide

/-- C8: the probe returns a latency only when the output contains the
time pattern (the substring time= followed by digits, a dot, digits and
a space before ms); outputs carrying timeout or unreachable markers, or
any output without the pattern, classify to the thrown failure. -/
theorem ping_ok_implies_time_pattern :
    (∀ (out : List Char) (v : ℚ), pingClassify out = Except.ok v → HasTimePattern out) ∧
    pingClassify ("Request timed out.".toList) = Except.error "Packet dropped" ∧
    pingClassify ("complete garbage".toList) = Except.error "Packet dropped" := by
  refine ⟨?_, by decide, by decide⟩
  intro out v h
  rw [pingClassify] at h
  split at h
  · exact absurd h (by simp)
  · cases hf : findTime out with
    | none =>
        rw [hf] at h
        exact absurd h (by simp)
    | some w =>
        obtain ⟨pre, rest, hsplit, hmatch⟩ := findTime_some out w hf
        obtain ⟨a, b, post, hrest, ha, hda, hb, hdb⟩ := matchTimeHere_some rest w hmatch
        exact ⟨pre, a, b, post, by rw [hsplit, hrest]; simp [List.append_assoc],
          ha, hda, hb, hdb⟩

/-- C8 witness: a genuine ping success line satisfies the pattern, obtained
by applying the theorem to its classification. -/
theorem ping_ok_implies_time_pattern_witness :
    HasTimePattern ("64 bytes from 1.1.1.1: icmp_seq=1 ttl=57 time=23.4 ms".toList) :=
  ping_ok_implies_time_pattern.1 _ (ratOfParts "23".toList "4".toList) (by rfl)

/-- C9: stop is idempotent: the first call clears the loop flag, closes the
store and performs no exit action under the default options, and a second
call reproduces exactly the same stopped state; closing the already-closed
handle changes nothing. -/
theorem stop_idempotent :
    ∀ p : PingerLifecycle,
      (stop p defaultStopOptions).1.isRunning = false ∧
      stop (stop p defaultStopOptions).1 defaultStopOptions = stop p defaultStopOptions ∧
      (stop p defaultStopOptions).2 = ExitAction.none ∧
      closeHandle (stop p defaultStopOptions).1.db = (stop p defaultStopOptions).1.db :=
  fun _ => ⟨rfl, rfl, rfl, rfl⟩

/-- C10: in the startup snapshot the probe counts are computed over only
the most recent queryLimit rows, while max/min/avg come from the all-time
aggregate row, whose total_count counts only successful probes - the two
halves of one snapshot are drawn from different populations. -/
theorem loadHistoricalStats_mixed_populations :
    ∀ (ps : List Probe) (L : ℕ),
      ∃ st, loadHistoricalStats L (applyProbes (openDatabase none) ps) = some st ∧
        st.totalPings = min L ps.length ∧
        st.successful = ((ps.reverse.take L).filter (fun p => p.2)).length ∧
        st.failed = ((ps.reverse.take L).filter (fun p => !p.2)).length ∧
        st.stats.maxLatency = (successLats ps).foldl max 0 ∧
        st.stats.minLatency = ((successLats ps).foldl optMin none).getD 0 ∧
        st.stats.avgLatency = (if (successLats ps).length = 0 then 0
          else (successLats ps).sum / ((successLats ps).length : ℚ)) ∧
        (applyProbes (openDatabase none) ps).agg =
          some { total_count := (successLats ps).length, total_sum := (successLats ps).sum,
                 historical_max := (successLats ps).foldl max 0,
                 historical_min := (successLats ps).foldl optMin none } := by
  intro ps L
  obtain ⟨st, hst, h1, h2, h3, h4, h5, h6⟩ := loadFresh_shape ps L
  exact ⟨st, hst, h1, h2, h3, h4, h5, h6, applyProbes_fresh_agg ps⟩
